import Mathlib

/-!
Shallow embedding of the historical-snapshot and trend-detection pipeline of
the shikiho-getter repository:

* Snapshot Store / Date Resolver / Series Builder: `src/services/historyPrice.ts`
* Trend Classifier (pairwise): `src/services/trendAnalyzer.ts`
* Growth Filter: `src/composables/useCompanyData.ts` and its configurable
  variant.

JS strings that are compared with `<=` (dates, file names) are modelled as
`List Char` with the lexicographic order; for the `YYYY-MM-DD` shapes involved
this coincides with the JS string comparison.  JS numbers are modelled as `ℚ`.
The file system is modelled as an association list from file name to raw file
contents; a fetch of the remote quote API is modelled as an oracle giving, for
each successive call, either a failure (a thrown/rejected request) or the
extracted response fields (each already optional, covering malformed bodies).
-/

/-- JS strings used as dates and file names: lists of characters, ordered
lexicographically (the JS `<=` comparison on such strings). -/
abbrev JsStr := List Char

/-- A per-stock record stored in `history/<date>.json`
(`HistoryRecord` in the repository's types). -/
structure HistoryRecord where
  stock_code : String
  company_name : Option String
  ratio_of_price_to_200days_ma : Option ℚ
  current_price : Option ℚ
  fetched_at : JsStr
  snapshotted_at : JsStr
deriving DecidableEq

/-- Raw contents of a history file, as relevant to `readHistoryFile`:
`JSON.parse` may throw, succeed with a non-array value, or yield an array
(which the code then uses as a list of records without further validation). -/
inductive RawContent where
  | notJson
  | jsonNonArray
  | jsonArray (records : List HistoryRecord)
deriving DecidableEq

/-- historyPrice.ts, `readHistoryFile` (lines 62-70): a missing file
(`fs.readFile` throws), a JSON parse failure, or a non-array JSON value all
yield `[]`; an array is returned as is. -/
def readHistoryFile : Option RawContent → List HistoryRecord
  | none => []
  | some .notJson => []
  | some .jsonNonArray => []
  | some (.jsonArray records) => records

/-- historyPrice.ts, the in-memory part of `upsertHistoryRecord`
(lines 74-79): replace the first record whose `stock_code` matches (the object
spread `{ ...records[idx], ...record }` with a full record replaces every
field), otherwise append the record at the end. -/
def upsertHistoryRecord (records : List HistoryRecord) (record : HistoryRecord) :
    List HistoryRecord :=
  match records.findIdx? (fun r => r.stock_code == record.stock_code) with
  | some idx => records.set idx record
  | none => records ++ [record]

/-- The history directory: an association list from file name to raw contents
(a model of a directory of files; names are unique in a real directory, which
theorems assume via a `Nodup` hypothesis where it matters). -/
abbrev HistoryDir := List (JsStr × RawContent)

/-- The entry names of the directory (`fs.readdir`). -/
def dirNames (fs : HistoryDir) : List JsStr := fs.map Prod.fst

/-- Contents of the named file, when it exists. -/
def lookupFile (fs : HistoryDir) (name : JsStr) : Option RawContent :=
  (fs.find? (fun p => p.1 == name)).map Prod.snd

/-- `fs.writeFile`: create or replace the named file. -/
def writeFile (fs : HistoryDir) (name : JsStr) (c : RawContent) : HistoryDir :=
  (name, c) :: fs.filter (fun p => p.1 != name)

/-- historyPrice.ts, `upsertHistoryRecord(filePath, record)` (lines 72-81) at
the file-system level: read the file, upsert in memory, write the array back. -/
def upsertHistoryRecordFs (fs : HistoryDir) (name : JsStr) (record : HistoryRecord) :
    HistoryDir :=
  writeFile fs name (.jsonArray (upsertHistoryRecord (readHistoryFile (lookupFile fs name)) record))

/-! ### Basic lemmas about the store -/

theorem lookupFile_writeFile (fs : HistoryDir) (name : JsStr) (c : RawContent) :
    lookupFile (writeFile fs name c) name = some c := by
  simp [lookupFile, writeFile, List.find?_cons_of_pos]

theorem upsertHistoryRecord_nil (r : HistoryRecord) : upsertHistoryRecord [] r = [r] := rfl

theorem upsertHistoryRecord_cons (x : HistoryRecord) (l : List HistoryRecord)
    (r : HistoryRecord) :
    upsertHistoryRecord (x :: l) r =
      if x.stock_code == r.stock_code then r :: l else x :: upsertHistoryRecord l r := by
  by_cases h : x.stock_code == r.stock_code
  · simp [upsertHistoryRecord, List.findIdx?_cons, h]
  · simp only [upsertHistoryRecord, List.findIdx?_cons, h, if_false, Bool.false_eq_true]
    cases hfi : l.findIdx? (fun r' => r'.stock_code == r.stock_code) with
    | none => simp [hfi]
    | some i => simp [hfi]

/-- Core of C3: upserting into a list whose stock codes are distinct leaves
exactly one record with the new record's stock code, namely the record itself. -/
theorem filter_upsertHistoryRecord (l : List HistoryRecord) (r : HistoryRecord)
    (hnodup : (l.map (fun x => x.stock_code)).Nodup) :
    (upsertHistoryRecord l r).filter (fun x => x.stock_code == r.stock_code) = [r] := by
  induction l with
  | nil =>
    simp [upsertHistoryRecord_nil, List.filter]
  | cons x l ih =>
    rw [upsertHistoryRecord_cons]
    simp only [List.map_cons, List.nodup_cons] at hnodup
    by_cases h : x.stock_code == r.stock_code
    · rw [if_pos h]
      have hx : x.stock_code = r.stock_code := by simpa using h
      have : ∀ y ∈ l, ¬(y.stock_code == r.stock_code) := by
        intro y hy hbeq
        exact hnodup.1 (by
          rw [hx, ← show y.stock_code = r.stock_code from by simpa using hbeq]
          exact List.mem_map_of_mem _ hy)
      rw [List.filter_cons_of_pos (by simpa using h)]
      rw [List.filter_eq_nil_iff.mpr this]
    · rw [if_neg h, List.filter_cons_of_neg (by simpa using h)]
      exact ih hnodup.2

/-- C3 composed at the store level: read, upsert, read. -/
theorem readHistoryFile_upsertHistoryRecordFs (fs : HistoryDir) (name : JsStr)
    (r : HistoryRecord) :
    readHistoryFile (lookupFile (upsertHistoryRecordFs fs name r) name) =
      upsertHistoryRecord (readHistoryFile (lookupFile fs name)) r := by
  rw [upsertHistoryRecordFs, lookupFile_writeFile]
  rfl

/-! ### Claim C7: readHistoryFile on bad contents -/

/-- Claim C7: for every file whose contents are absent, not valid JSON, or a
JSON value that is not an array, `readHistoryFile` returns the empty list (and,
being a total function into `List`, it does not raise). -/
theorem readHistoryFile_bad_contents (c : Option RawContent)
    (h : c = none ∨ c = some .notJson ∨ c = some .jsonNonArray) :
    readHistoryFile c = [] := by
  rcases h with h | h | h <;> subst h <;> rfl

theorem readHistoryFile_bad_contents_witness :
    readHistoryFile (some .notJson) = [] :=
  readHistoryFile_bad_contents (some .notJson) (Or.inr (Or.inl rfl))

/-! ### Claim C3: read / upsert / read -/

/-- Claim C3: for a valid snapshot file (stock codes unique within the file),
reading it, upserting a record `r` with `r.stock_code = code`, and reading it
again yields a list containing exactly one record with stock code `code`,
namely `r` itself. -/
theorem read_upsert_read_unique (fs : HistoryDir) (name : JsStr) (code : String)
    (r : HistoryRecord) (hcode : r.stock_code = code)
    (hnodup : ((readHistoryFile (lookupFile fs name)).map (fun x => x.stock_code)).Nodup) :
    (readHistoryFile (lookupFile (upsertHistoryRecordFs fs name r) name)).filter
      (fun x => x.stock_code == code) = [r] := by
  rw [readHistoryFile_upsertHistoryRecordFs]
  subst hcode
  exact filter_upsertHistoryRecord _ _ hnodup

/-- A sample stored record used by concrete witnesses. -/
def sampleStored : HistoryRecord :=
  { stock_code := "7203", company_name := some "TOYOTA",
    ratio_of_price_to_200days_ma := none, current_price := none,
    fetched_at := "2025-01-01".toList, snapshotted_at := "2025-01-01".toList }

/-- A sample fresh record used by concrete witnesses. -/
def sampleFresh : HistoryRecord :=
  { stock_code := "7203", company_name := some "TOYOTA",
    ratio_of_price_to_200days_ma := none, current_price := some 100,
    fetched_at := "2025-01-02".toList, snapshotted_at := "2025-01-02".toList }

/-- A sample one-file directory used by concrete witnesses. -/
def sampleDir : HistoryDir := [("2025-01-01.json".toList, .jsonArray [sampleStored])]

theorem read_upsert_read_unique_witness :
    (readHistoryFile (lookupFile
        (upsertHistoryRecordFs sampleDir ("2025-01-01.json".toList) sampleFresh)
        ("2025-01-01.json".toList))).filter
      (fun x => x.stock_code == "7203") = [sampleFresh] :=
  read_upsert_read_unique sampleDir ("2025-01-01.json".toList) "7203" sampleFresh rfl
    (by decide)

/-! ### Claim C9: upsert frame properties -/

/-- Claim C9: `upsertHistoryRecord` leaves every record whose stock code
differs from the new record's unchanged and in its original relative position;
when no record matches, the result is the original list with the record
appended; the length grows by zero or one. -/
theorem upsertHistoryRecord_frame (l : List HistoryRecord) (r : HistoryRecord) :
    ((upsertHistoryRecord l r).filter (fun x => x.stock_code != r.stock_code) =
        l.filter (fun x => x.stock_code != r.stock_code))
    ∧ ((∀ x ∈ l, x.stock_code ≠ r.stock_code) → upsertHistoryRecord l r = l ++ [r])
    ∧ ((upsertHistoryRecord l r).length = l.length ∨
        (upsertHistoryRecord l r).length = l.length + 1) := by
  refine ⟨?_, ?_, ?_⟩
  · induction l with
    | nil => simp [upsertHistoryRecord_nil]
    | cons x l ih =>
      rw [upsertHistoryRecord_cons]
      by_cases h : x.stock_code == r.stock_code
      · rw [if_pos h]
        have hx : x.stock_code = r.stock_code := by simpa using h
        rw [List.filter_cons_of_neg (by simp), List.filter_cons_of_neg (by simp [hx])]
      · rw [if_neg h, List.filter_cons_of_pos (by simpa using h),
          List.filter_cons_of_pos (by simpa using h), ih]
  · intro hall
    induction l with
    | nil => rfl
    | cons x l ih =>
      rw [upsertHistoryRecord_cons,
        if_neg (by simpa using hall x (List.mem_cons_self x l)), List.cons_append,
        ih (fun y hy => hall y (List.mem_cons_of_mem x hy))]
  · induction l with
    | nil => right; rfl
    | cons x l ih =>
      rw [upsertHistoryRecord_cons]
      by_cases h : x.stock_code == r.stock_code
      · rw [if_pos h]; left; simp
      · rw [if_neg h]
        rcases ih with ih | ih
        · left; simp [ih]
        · right; simp [ih]

theorem upsertHistoryRecord_frame_witness :
    (upsertHistoryRecord [sampleStored] sampleFresh).filter
        (fun x => x.stock_code != sampleFresh.stock_code) =
      [sampleStored].filter (fun x => x.stock_code != sampleFresh.stock_code)
    ∧ upsertHistoryRecord [] sampleFresh = [] ++ [sampleFresh]
    ∧ ((upsertHistoryRecord [sampleStored] sampleFresh).length = 1 ∨
        (upsertHistoryRecord [sampleStored] sampleFresh).length = 1 + 1) :=
  ⟨(upsertHistoryRecord_frame [sampleStored] sampleFresh).1,
    (upsertHistoryRecord_frame [] sampleFresh).2.1 (by simp),
    (upsertHistoryRecord_frame [sampleStored] sampleFresh).2.2⟩

/-! ### Trend Classifier (src/services/trendAnalyzer.ts) -/

/-- Direction of a detected trend change. -/
inductive TrendDirection where
  | up
  | down
  | neutral
deriving DecidableEq

/-- `TrendChange` of trendAnalyzer.ts. -/
structure TrendChange where
  stock_code : String
  company_name : Option String
  old_ratio : Option ℚ
  new_ratio : Option ℚ
  change : Option ℚ
  trend_direction : TrendDirection
deriving DecidableEq

/-- trendAnalyzer.ts lines 113-114 and 119: `oldMap` built by
`oldData.forEach(r => oldMap.set(r.stock_code, r))` and then looked up; with
duplicate stock codes the last record wins (`Map.set` overwrites). -/
def lookupLast (l : List HistoryRecord) (code : String) : Option HistoryRecord :=
  l.foldl (fun acc r => if r.stock_code == code then some r else acc) none

/-- trendAnalyzer.ts lines 128-130: `change = newRatio - oldRatio`, null as
soon as either ratio is null. -/
def pairDelta (oldRatio newRatio : Option ℚ) : Option ℚ :=
  match newRatio, oldRatio with
  | some n, some o => some (n - o)
  | _, _ => none

/-- trendAnalyzer.ts lines 132-136: classify the delta against the fixed
`0.02` threshold; an incomputable (null) delta stays neutral. -/
def pairDirection (change : Option ℚ) : TrendDirection :=
  match change with
  | some c => if c > 2/100 then .up else if c < -(2/100) then .down else .neutral
  | none => .neutral

/-- trendAnalyzer.ts, the pure core of `detectTrendChanges` (lines 113-149):
for each record of the newer snapshot, look its stock code up in the older
snapshot's map; skip stocks absent there and stocks whose ratio is null on
both sides; compute the delta and its direction; report only non-neutral
entries. -/
def detectTrendChanges (oldData newData : List HistoryRecord) : List TrendChange :=
  newData.filterMap (fun newRecord =>
    match lookupLast oldData newRecord.stock_code with
    | none => none
    | some oldRecord =>
      let oldRatio := oldRecord.ratio_of_price_to_200days_ma
      let newRatio := newRecord.ratio_of_price_to_200days_ma
      if oldRatio = none ∧ newRatio = none then none
      else
        let change := pairDelta oldRatio newRatio
        let dir := pairDirection change
        if dir ≠ .neutral then
          some { stock_code := newRecord.stock_code, company_name := newRecord.company_name,
                 old_ratio := oldRatio, new_ratio := newRatio, change := change,
                 trend_direction := dir }
        else none)

/-- trendAnalyzer.ts, the pure core of `getComparisonFiles` (lines 57-79):
given the available file names in ascending order and the target date, return
the newest file at or before the target (scanning from the end) and the newest
file overall. -/
def getComparisonFiles (files : List JsStr) (targetDateStr : JsStr) :
    Option JsStr × Option JsStr :=
  match files.getLast? with
  | none => (none, none)
  | some newFile =>
      (files.reverse.find? (fun f => decide (f ≤ targetDateStr ++ ".json".toList)),
        some newFile)

/-- A record carrying only a stock code and a ratio, for concrete examples. -/
def ratioRecord (code : String) (ratio : Option ℚ) : HistoryRecord :=
  { stock_code := code, company_name := some "ACME",
    ratio_of_price_to_200days_ma := ratio, current_price := some 500,
    fetched_at := "2025-01-01".toList, snapshotted_at := "2025-01-01".toList }

/-! ### Claim C6: pairwise trend classification -/

/-- Claim C6: the pairwise classifier computes `delta = newRatio - oldRatio`
(null if either side is null, and a null delta is neutral), labels `up` above
`0.02`, `down` below `-0.02`, neutral otherwise, and only non-neutral entries
appear in the changes list; in particular 0.10 → 0.15 is up, 0.10 → 0.105 is
neutral (excluded), and null → 0.2 has null delta, is neutral and is excluded. -/
theorem trend_pairwise_classification :
    (∀ o n : ℚ, pairDelta (some o) (some n) = some (n - o))
    ∧ (∀ o n : Option ℚ, o = none ∨ n = none → pairDelta o n = none)
    ∧ (∀ c : ℚ, (c > 2/100 → pairDirection (some c) = .up)
        ∧ (c < -(2/100) → pairDirection (some c) = .down)
        ∧ (¬ c > 2/100 → ¬ c < -(2/100) → pairDirection (some c) = .neutral))
    ∧ pairDirection none = .neutral
    ∧ (∀ oldData newData c, c ∈ detectTrendChanges oldData newData →
        c.trend_direction ≠ .neutral)
    ∧ detectTrendChanges [ratioRecord "7203" (some (10/100))]
        [ratioRecord "7203" (some (15/100))] =
      [{ stock_code := "7203", company_name := some "ACME",
         old_ratio := some (10/100), new_ratio := some (15/100),
         change := some (5/100), trend_direction := .up }]
    ∧ detectTrendChanges [ratioRecord "7203" (some (10/100))]
        [ratioRecord "7203" (some (105/1000))] = []
    ∧ detectTrendChanges [ratioRecord "7203" none]
        [ratioRecord "7203" (some (20/100))] = [] := by
  refine ⟨?_, ?_, ?_, rfl, ?_, ?_, ?_, ?_⟩
  · intro o n; rfl
  · rintro o n (rfl | rfl)
    · cases n <;> rfl
    · cases o <;> rfl
  · intro c
    refine ⟨fun h => ?_, fun h => ?_, fun h1 h2 => ?_⟩
    · simp [pairDirection, h]
    · simp only [pairDirection]
      rw [if_neg (by linarith), if_pos h]
    · simp only [pairDirection]
      rw [if_neg h1, if_neg h2]
  · intro oldData newData c hc
    rw [detectTrendChanges] at hc
    obtain ⟨a, -, hfa⟩ := List.mem_filterMap.mp hc
    cases hlook : lookupLast oldData a.stock_code with
    | none => rw [hlook] at hfa; exact absurd hfa (by simp)
    | some oldRecord =>
      rw [hlook] at hfa
      simp only at hfa
      by_cases hskip : oldRecord.ratio_of_price_to_200days_ma = none ∧
          a.ratio_of_price_to_200days_ma = none
      · rw [if_pos hskip] at hfa; exact absurd hfa (by simp)
      · rw [if_neg hskip] at hfa
        by_cases hdir : pairDirection (pairDelta oldRecord.ratio_of_price_to_200days_ma
            a.ratio_of_price_to_200days_ma) ≠ .neutral
        · rw [if_pos hdir] at hfa
          rw [← Option.some.inj hfa]
          exact hdir
        · rw [if_neg hdir] at hfa
          exact absurd hfa (by simp)
  · norm_num [detectTrendChanges, lookupLast, pairDelta, pairDirection, ratioRecord,
      List.filterMap_cons, List.filterMap_nil]
    rfl
  · norm_num [detectTrendChanges, lookupLast, pairDelta, pairDirection, ratioRecord,
      List.filterMap_cons, List.filterMap_nil]
  · norm_num [detectTrendChanges, lookupLast, pairDelta, pairDirection, ratioRecord,
      List.filterMap_cons, List.filterMap_nil]

theorem trend_pairwise_classification_witness :
    pairDelta none (some (20/100)) = none
    ∧ ({ stock_code := "7203", company_name := some "ACME",
         old_ratio := some (10/100), new_ratio := some (15/100),
         change := some (5/100), trend_direction := .up } : TrendChange).trend_direction
        ≠ .neutral := by
  obtain ⟨h1, h2, h3, h4, h5, h6, h7, h8⟩ := trend_pairwise_classification
  refine ⟨h2 none (some (20/100)) (Or.inl rfl),
    h5 [ratioRecord "7203" (some (10/100))] [ratioRecord "7203" (some (15/100))] _ ?_⟩
  rw [h6]
  exact List.mem_singleton.mpr rfl

/-! ### Claim C10: comparing a snapshot against itself -/

theorem foldl_lookup_eq (l : List HistoryRecord) (code : String) (acc : Option HistoryRecord) :
    l.foldl (fun acc r => if r.stock_code == code then some r else acc) acc =
      match l.reverse.find? (fun r => r.stock_code == code) with
      | some r => some r
      | none => acc := by
  induction l generalizing acc with
  | nil => rfl
  | cons x t ih =>
    rw [List.foldl_cons, ih, List.reverse_cons, List.find?_append]
    by_cases hx : x.stock_code == code
    · cases hf : t.reverse.find? (fun r => r.stock_code == code) with
      | some r => simp [hf]
      | none => simp [hf, List.find?_cons_of_pos, hx]
    · cases hf : t.reverse.find? (fun r => r.stock_code == code) with
      | some r => simp [hf]
      | none => simp [hf, List.find?_cons_of_neg, hx]

theorem find?_code_eq_self_of_nodup (l : List HistoryRecord) (r : HistoryRecord)
    (hnodup : (l.map (fun x => x.stock_code)).Nodup) (hr : r ∈ l) :
    l.find? (fun x => x.stock_code == r.stock_code) = some r := by
  induction l with
  | nil => cases hr
  | cons y t ih =>
    simp only [List.map_cons, List.nodup_cons] at hnodup
    rcases List.mem_cons.mp hr with rfl | hrt
    · rw [List.find?_cons_of_pos _ (by simp)]
    · by_cases hy : y.stock_code == r.stock_code
      · exact absurd (by
          rw [show y.stock_code = r.stock_code from by simpa using hy]
          exact List.mem_map_of_mem _ hrt) hnodup.1
      · rw [show (y :: t).find? (fun x => x.stock_code == r.stock_code) =
              t.find? (fun x => x.stock_code == r.stock_code) from
            List.find?_cons_of_neg _ hy]
        exact ih hnodup.2 hrt

theorem lookupLast_self (l : List HistoryRecord) (r : HistoryRecord)
    (hnodup : (l.map (fun x => x.stock_code)).Nodup) (hr : r ∈ l) :
    lookupLast l r.stock_code = some r := by
  rw [lookupLast, foldl_lookup_eq,
    find?_code_eq_self_of_nodup l.reverse r
      (by rw [List.map_reverse]; exact List.nodup_reverse.mpr hnodup)
      (List.mem_reverse.mpr hr)]

/-- Claim C10 (amended): pairwise trend detection comparing a record list with
itself yields the empty changes list, provided the stock codes in the list are
distinct (the snapshot-file invariant); and when exactly one snapshot file
exists at or before the comparison target, `getComparisonFiles` returns that
same file as both the old and the new file. -/
theorem detectTrendChanges_self (l : List HistoryRecord)
    (hnodup : (l.map (fun x => x.stock_code)).Nodup) (f target : JsStr)
    (hf : f ≤ target ++ ".json".toList) :
    detectTrendChanges l l = [] ∧ getComparisonFiles [f] target = (some f, some f) := by
  constructor
  · rw [detectTrendChanges]
    refine List.filterMap_eq_nil_iff.mpr (fun r hr => ?_)
    rw [lookupLast_self l r hnodup hr]
    simp only
    cases hratio : r.ratio_of_price_to_200days_ma with
    | none => rw [if_pos ⟨rfl, rfl⟩]
    | some v =>
      rw [if_neg (by simp)]
      have hdelta : pairDelta (some v) (some v) = some 0 := by
        simp [pairDelta]
      rw [hdelta]
      have hdir : pairDirection (some 0) = .neutral := by
        rw [pairDirection]
        rw [if_neg (by norm_num), if_neg (by norm_num)]
      rw [hdir]
      simp
  · simp [getComparisonFiles, List.find?_cons_of_pos, hf]
    exact hf

theorem detectTrendChanges_self_witness :
    detectTrendChanges [sampleStored] [sampleStored] = []
    ∧ getComparisonFiles ["2025-01-01.json".toList] ("2025-01-07".toList) =
        (some ("2025-01-01.json".toList), some ("2025-01-01.json".toList)) :=
  detectTrendChanges_self [sampleStored] (by decide) ("2025-01-01.json".toList)
    ("2025-01-07".toList) (by decide)

/-- Claim C10, counterexample to the unrestricted statement: with duplicate
stock codes in the list (ruled out in real snapshot files), the `Map`-based
lookup returns the last record for the code while iteration visits each
record, so comparing the list against itself can report changes. -/
theorem detectTrendChanges_self_counterexample :
    detectTrendChanges [ratioRecord "9984" (some 1), ratioRecord "9984" (some 0)]
      [ratioRecord "9984" (some 1), ratioRecord "9984" (some 0)] ≠ [] := by
  norm_num [detectTrendChanges, lookupLast, pairDelta, pairDirection, ratioRecord,
    List.filterMap_cons, List.filterMap_nil]
  decide

/-! ### Growth Filter (configurable `isHighGrowthCompany`,
src/composables/useCompanyData.ts and its settings-aware variant) -/

/-- A company performance row (`PerformanceData` fields used by the filter). -/
structure PerformanceRow where
  period : JsStr
  netSales : Option ℚ
  isActual : Bool
  isQuarterly : Bool
deriving DecidableEq

/-- The fields of `CompanyData` used by the growth filter. -/
structure CompanyData where
  companyName : String
  marketCap : Option ℚ
  performanceData : List PerformanceRow
deriving DecidableEq

/-- A placeholder row for (unreachable) out-of-range indexing. -/
def defaultRow : PerformanceRow :=
  { period := [], netSales := none, isActual := false, isQuarterly := false }

/-- The consecutive-growth loop of `isHighGrowthCompany`: walk the rows
newest-first, counting strict year-over-year revenue increases and stopping at
the first non-increase. -/
def growthStreak : List PerformanceRow → Nat
  | a :: b :: rest =>
    if a.netSales.getD 0 > b.netSales.getD 0 then growthStreak (b :: rest) + 1 else 0
  | _ => 0

/-- The configurable `isHighGrowthCompany(company)` (settings-aware variant;
the fixed variant in useCompanyData.ts is the special case
`consecutiveGrowthYears = 4`, `salesGrowthRatio = 2`, `marketCapLimit = none`):
require `consecutiveGrowthYears + 1` actual non-quarterly rows with non-null
revenue, optionally reject on the market-cap ceiling (skipped for a null or
zero market cap, by JS truthiness), sort actual rows by period descending,
take the newest rows, require the streak and the revenue ratio versus
`consecutiveGrowthYears` years ago. -/
def isHighGrowthCompany (company : CompanyData) (consecutiveGrowthYears : Nat)
    (salesGrowthRatio : ℚ) (marketCapLimit : Option ℚ) : Bool :=
  let minYears := consecutiveGrowthYears + 1
  if company.performanceData.length < minYears then false
  else if (match marketCapLimit, company.marketCap with
      | some lim, some mc => decide (mc ≠ 0) && decide (mc / 100 > lim)
      | _, _ => false) then false
  else
    let actualResults :=
      ((company.performanceData.filter
          (fun row => row.isActual && row.netSales.isSome && !row.isQuarterly)).insertionSort
        (fun a b => b.period ≤ a.period)).take minYears
    if actualResults.length < minYears then false
    else if growthStreak actualResults < consecutiveGrowthYears then false
    else
      let latestSales := (actualResults.getD 0 defaultRow).netSales.getD 0
      let comparisonYearSales :=
        (actualResults.getD consecutiveGrowthYears defaultRow).netSales.getD 0
      if comparisonYearSales ≤ 0 then false
      else decide (latestSales / comparisonYearSales ≥ salesGrowthRatio)

/-- An actual, non-quarterly yearly performance row. -/
def yearRow (period : JsStr) (sales : ℚ) : PerformanceRow :=
  { period := period, netSales := some sales, isActual := true, isQuarterly := false }

/-- The declining company of claim C5: revenues 100, 90, 80, 70, 60
newest-to-oldest. -/
def decliningCompany : CompanyData :=
  { companyName := "DECL", marketCap := none,
    performanceData :=
      [yearRow "2024".toList 100, yearRow "2023".toList 90, yearRow "2022".toList 80,
       yearRow "2021".toList 70, yearRow "2020".toList 60] }

/-- The growing company of claim C5: revenues 240, 200, 160, 120, 100
newest-to-oldest. -/
def growingCompany : CompanyData :=
  { companyName := "GROW", marketCap := none,
    performanceData :=
      [yearRow "2024".toList 240, yearRow "2023".toList 200, yearRow "2022".toList 160,
       yearRow "2021".toList 120, yearRow "2020".toList 100] }

/-! ### Claim C5: growth filter examples -/

/-- Claim C5, counterexample to its streak-0 part: with revenues
100, 90, 80, 70, 60 newest-to-oldest, every year's revenue strictly exceeds
the next older year's (the loop compares row `i` against the older row
`i + 1`), so the consecutive-growth streak is 4, not 0. -/
theorem growth_filter_declining_counterexample :
    growthStreak (((decliningCompany.performanceData.filter
        (fun row => row.isActual && row.netSales.isSome && !row.isQuarterly)).insertionSort
        (fun a b => b.period ≤ a.period)).take 5) ≠ 0 := by
  decide

/-- Claim C5 (amended): with `consecutiveGrowthYears = 4` and
`salesGrowthRatio = 2`, the company with revenues 100, 90, 80, 70, 60
newest-to-oldest has consecutive-growth streak 4 but growth ratio
100/60 = 5/3 < 2, so it is classified `false`; the company with revenues
240, 200, 160, 120, 100 has streak 4 and growth ratio 240/100 = 12/5 ≥ 2 and
is classified `true`. -/
theorem growth_filter_examples :
    growthStreak (((decliningCompany.performanceData.filter
        (fun row => row.isActual && row.netSales.isSome && !row.isQuarterly)).insertionSort
        (fun a b => b.period ≤ a.period)).take 5) = 4
    ∧ ((decliningCompany.performanceData.getD 0 defaultRow).netSales.getD 0) /
        ((decliningCompany.performanceData.getD 4 defaultRow).netSales.getD 0) = 5/3
    ∧ ¬ ((5 : ℚ)/3 ≥ 2)
    ∧ isHighGrowthCompany decliningCompany 4 2 none = false
    ∧ growthStreak (((growingCompany.performanceData.filter
        (fun row => row.isActual && row.netSales.isSome && !row.isQuarterly)).insertionSort
        (fun a b => b.period ≤ a.period)).take 5) = 4
    ∧ ((growingCompany.performanceData.getD 0 defaultRow).netSales.getD 0) /
        ((growingCompany.performanceData.getD 4 defaultRow).netSales.getD 0) = 12/5
    ∧ ((12 : ℚ)/5 ≥ 2)
    ∧ isHighGrowthCompany growingCompany 4 2 none = true := by
  have hsortD : ((decliningCompany.performanceData.filter
      (fun row => row.isActual && row.netSales.isSome && !row.isQuarterly)).insertionSort
      (fun a b => b.period ≤ a.period)) = decliningCompany.performanceData := by decide
  have hsortG : ((growingCompany.performanceData.filter
      (fun row => row.isActual && row.netSales.isSome && !row.isQuarterly)).insertionSort
      (fun a b => b.period ≤ a.period)) = growingCompany.performanceData := by decide
  refine ⟨by decide, by norm_num [decliningCompany, yearRow, defaultRow], by norm_num,
    ?_, by decide, by norm_num [growingCompany, yearRow, defaultRow], by norm_num, ?_⟩
  · simp only [isHighGrowthCompany]
    rw [hsortD]
    norm_num [decliningCompany, yearRow, defaultRow, growthStreak]
  · simp only [isHighGrowthCompany]
    rw [hsortG]
    norm_num [growingCompany, yearRow, defaultRow, growthStreak]

/-! ### Date normalization (historyPrice.ts lines 13-27) -/

/-- The `^\d{4}-\d{2}-\d{2}$` test (historyPrice.ts line 22). -/
def isDashDate : JsStr → Bool
  | [y1, y2, y3, y4, s1, m1, m2, s2, d1, d2] =>
    y1.isDigit && y2.isDigit && y3.isDigit && y4.isDigit && s1 == '-' &&
    m1.isDigit && m2.isDigit && s2 == '-' && d1.isDigit && d2.isDigit
  | _ => false

/-- The `^\d{4}\/\d{2}\/\d{2}$` test (historyPrice.ts line 19). -/
def isSlashDate : JsStr → Bool
  | [y1, y2, y3, y4, s1, m1, m2, s2, d1, d2] =>
    y1.isDigit && y2.isDigit && y3.isDigit && y4.isDigit && s1 == '/' &&
    m1.isDigit && m2.isDigit && s2 == '/' && d1.isDigit && d2.isDigit
  | _ => false

/-- `date.replace(/\//g, '-')` (historyPrice.ts line 20). -/
def replaceSlashes (d : JsStr) : JsStr := d.map (fun c => if c == '/' then '-' else c)

/-- The failures the pipeline can surface. -/
inductive JsError where
  | invalidDateFormat
  | noHistoryAvailable
  | fetchFailed
deriving DecidableEq

/-- historyPrice.ts `normalizeDateInput` (lines 13-27): `if (!date)` treats
both an absent argument and the empty string (falsy in JS) as missing and
defaults them to today's date; otherwise a `YYYY/MM/DD` date has its slashes
replaced, and the result must match `YYYY-MM-DD` or the call throws. -/
def normalizeDateInput (today : JsStr) (date : Option JsStr) : Except JsError JsStr :=
  match date with
  | none => .ok today
  | some d =>
    if d = [] then .ok today
    else
      let normalized := if isSlashDate d then replaceSlashes d else d
      if isDashDate normalized then .ok normalized else .error .invalidDateFormat

theorem digit_if_slash (c : Char) (hc : c.isDigit = true) :
    (if c = '/' then '-' else c) = c := by
  rw [if_neg]
  intro heq
  rw [heq] at hc
  exact absurd hc (by decide)

theorem isDashDate_replaceSlashes (d : JsStr) (h : isSlashDate d = true) :
    isDashDate (replaceSlashes d) = true := by
  unfold isSlashDate at h
  split at h
  next y1 y2 y3 y4 s1 m1 m2 s2 d1 d2 =>
    simp only [Bool.and_eq_true, beq_iff_eq] at h
    obtain ⟨⟨⟨⟨⟨⟨⟨⟨⟨h1, h2⟩, h3⟩, h4⟩, h5⟩, h6⟩, h7⟩, h8⟩, h9⟩, h10⟩ := h
    subst h5
    subst h8
    simp only [replaceSlashes, List.map_cons, List.map_nil, isDashDate,
      Bool.and_eq_true, beq_iff_eq]
    rw [digit_if_slash _ h1, digit_if_slash _ h2, digit_if_slash _ h3, digit_if_slash _ h4,
      digit_if_slash _ h6, digit_if_slash _ h7, digit_if_slash _ h9, digit_if_slash _ h10]
    simp [h1, h2, h3, h4, h6, h7, h9, h10]
  next => exact absurd h (by simp)

theorem isSlashDate_eq_false_of_isDashDate (d : JsStr) (h : isDashDate d = true) :
    isSlashDate d = false := by
  unfold isDashDate at h
  split at h
  next y1 y2 y3 y4 s1 m1 m2 s2 d1 d2 =>
    simp only [Bool.and_eq_true, beq_iff_eq] at h
    obtain ⟨⟨⟨⟨⟨⟨⟨⟨⟨h1, h2⟩, h3⟩, h4⟩, h5⟩, h6⟩, h7⟩, h8⟩, h9⟩, h10⟩ := h
    simp [isSlashDate, h5]
  next h' => exact absurd h (by simp)

theorem isDashDate_ne_nil (d : JsStr) (h : isDashDate d = true) : d ≠ [] := by
  intro hnil
  rw [hnil] at h
  exact absurd h (by decide)

theorem isSlashDate_ne_nil (d : JsStr) (h : isSlashDate d = true) : d ≠ [] := by
  intro hnil
  rw [hnil] at h
  exact absurd h (by decide)

theorem normalizeDateInput_dash (today : JsStr) (d : JsStr) (h : isDashDate d = true) :
    normalizeDateInput today (some d) = .ok d := by
  simp [normalizeDateInput, isDashDate_ne_nil d h, isSlashDate_eq_false_of_isDashDate d h, h]

/-! ### Claim C8: date normalization fails exactly on malformed input -/

/-- Claim C8, counterexample: the empty string matches neither date format,
yet `normalizeDateInput` does not throw on it: JS `if (!date)` treats `""` as
falsy and silently substitutes today's date. -/
theorem normalizeDateInput_empty_counterexample :
    isDashDate ([] : JsStr) = false ∧ isSlashDate ([] : JsStr) = false
    ∧ normalizeDateInput ("2025-06-01".toList) (some ([] : JsStr)) =
        .ok ("2025-06-01".toList) :=
  ⟨rfl, rfl, rfl⟩

/-- Claim C8 (amended): for every non-empty caller-supplied date string,
`normalizeDateInput` throws `InvalidDateFormat` exactly when the string
matches neither `YYYY-MM-DD` nor `YYYY/MM/DD`, and a well-formed string is
returned as itself (dashes) or with slashes replaced; the empty string alone
is treated like an absent argument (JS falsiness) and silently defaults to
today's date. -/
theorem normalizeDateInput_spec (today : JsStr) (d : JsStr) (hne : d ≠ []) :
    (normalizeDateInput today (some d) = .error .invalidDateFormat ↔
      (isDashDate d = false ∧ isSlashDate d = false))
    ∧ (isDashDate d = true → normalizeDateInput today (some d) = .ok d)
    ∧ (isSlashDate d = true →
        normalizeDateInput today (some d) = .ok (replaceSlashes d))
    ∧ normalizeDateInput today (some ([] : JsStr)) = .ok today := by
  refine ⟨⟨fun herr => ?_, fun ⟨hd, hs⟩ => ?_⟩, fun h => normalizeDateInput_dash today d h,
    fun hs => ?_, rfl⟩
  · by_cases hs : isSlashDate d = true
    · rw [show normalizeDateInput today (some d) = .ok (replaceSlashes d) from by
        simp [normalizeDateInput, hne, hs, isDashDate_replaceSlashes d hs]] at herr
      exact absurd herr (by simp)
    · by_cases hd : isDashDate d = true
      · rw [normalizeDateInput_dash today d hd] at herr
        exact absurd herr (by simp)
      · exact ⟨by simpa using hd, by simpa using hs⟩
  · simp [normalizeDateInput, hne, hd, hs]
  · simp [normalizeDateInput, hne, hs, isDashDate_replaceSlashes d hs]

theorem normalizeDateInput_spec_witness :
    normalizeDateInput ("2025-06-01".toList) (some ("2025-13-40".toList)) =
        .ok ("2025-13-40".toList)
    ∧ normalizeDateInput ("2025-06-01".toList) (some ("2025/01/02".toList)) =
        .ok (replaceSlashes ("2025/01/02".toList))
    ∧ normalizeDateInput ("2025-06-01".toList) (some ("not-a-date!".toList)) =
        .error .invalidDateFormat
    ∧ normalizeDateInput ("2025-06-01".toList) (some ([] : JsStr)) =
        .ok ("2025-06-01".toList) :=
  ⟨(normalizeDateInput_spec ("2025-06-01".toList) ("2025-13-40".toList)
      (by decide)).2.1 (by decide),
    (normalizeDateInput_spec ("2025-06-01".toList) ("2025/01/02".toList)
      (by decide)).2.2.1 (by decide),
    (normalizeDateInput_spec ("2025-06-01".toList) ("not-a-date!".toList)
      (by decide)).1.mpr (by decide),
    (normalizeDateInput_spec ("2025-06-01".toList) ("x".toList) (by decide)).2.2.2⟩

/-! ### History file listing (historyPrice.ts lines 29-38) and date order -/

/-- The `^\d{4}-\d{2}-\d{2}\.json$` file-name filter (historyPrice.ts line 33). -/
def isHistoryFileName : JsStr → Bool
  | [y1, y2, y3, y4, s1, m1, m2, s2, d1, d2, e1, e2, e3, e4, e5] =>
    y1.isDigit && y2.isDigit && y3.isDigit && y4.isDigit && s1 == '-' &&
    m1.isDigit && m2.isDigit && s2 == '-' && d1.isDigit && d2.isDigit &&
    e1 == '.' && e2 == 'j' && e3 == 's' && e4 == 'o' && e5 == 'n'
  | _ => false

/-- `f.replace(/\.json$/, '')` on a matching name: drop the 5-character
`.json` suffix (historyPrice.ts lines 113 and 196). -/
def stripJsonSuffix (f : JsStr) : JsStr := f.take (f.length - 5)

/-- `<date>.json` (historyPrice.ts lines 101, 124, 146, 202, 214). -/
def dateFileName (d : JsStr) : JsStr := d ++ ".json".toList

/-- historyPrice.ts `listHistoryFiles` (lines 29-38): directory entries
filtered to `YYYY-MM-DD.json` names, sorted ascending (`Array.sort` with the
default string comparison, modelled by insertion sort; any correct sort agrees
on the duplicate-free name lists a directory produces). -/
def listHistoryFiles (fs : HistoryDir) : List JsStr :=
  ((dirNames fs).filter isHistoryFileName).insertionSort (· ≤ ·)

/-- The dates of the available history files, in ascending file order. -/
def availableDates (fs : HistoryDir) : List JsStr :=
  (listHistoryFiles fs).map stripJsonSuffix

theorem isHistoryFileName_decomp (f : JsStr) (h : isHistoryFileName f = true) :
    f = stripJsonSuffix f ++ ".json".toList ∧ (stripJsonSuffix f).length = 10 := by
  unfold isHistoryFileName at h
  split at h
  next y1 y2 y3 y4 s1 m1 m2 s2 d1 d2 e1 e2 e3 e4 e5 =>
    simp only [Bool.and_eq_true, beq_iff_eq] at h
    obtain ⟨⟨⟨⟨⟨h10, he1⟩, he2⟩, he3⟩, he4⟩, he5⟩ := h
    subst he1; subst he2; subst he3; subst he4; subst he5
    constructor
    · simp [stripJsonSuffix]
    · simp [stripJsonSuffix]
  next => exact absurd h (by simp)

theorem lex_irrefl : ∀ s : JsStr, ¬ List.Lex (· < ·) s s
  | [], h => by cases h
  | c :: t, h => by
    cases h with
    | rel h => exact absurd h (lt_irrefl c)
    | cons h => exact lex_irrefl t h

/-- Lexicographic comparison of equal-length lists ignores a common suffix. -/
theorem lex_append_iff : ∀ (xs ys s : List Char), xs.length = ys.length →
    (List.Lex (· < ·) (xs ++ s) (ys ++ s) ↔ List.Lex (· < ·) xs ys)
  | [], [], s, _ => by
    simp only [List.nil_append]
    exact ⟨fun h => absurd h (lex_irrefl s), fun h => by cases h⟩
  | [], y :: yt, s, hlen => by simp at hlen
  | x :: xt, [], s, hlen => by simp at hlen
  | x :: xt, y :: yt, s, hlen => by
    simp only [List.cons_append]
    constructor
    · intro h
      cases h with
      | rel h => exact List.Lex.rel h
      | cons h =>
        exact List.Lex.cons ((lex_append_iff xt yt s (by simpa using hlen)).mp h)
    · intro h
      cases h with
      | rel h => exact List.Lex.rel h
      | cons h =>
        exact List.Lex.cons ((lex_append_iff xt yt s (by simpa using hlen)).mpr h)

theorem lt_iff_strip_lt (a b : JsStr) (ha : isHistoryFileName a = true)
    (hb : isHistoryFileName b = true) :
    a < b ↔ stripJsonSuffix a < stripJsonSuffix b := by
  obtain ⟨hae, hal⟩ := isHistoryFileName_decomp a ha
  obtain ⟨hbe, hbl⟩ := isHistoryFileName_decomp b hb
  calc a < b ↔ List.Lex (· < ·) a b := Iff.rfl
    _ ↔ List.Lex (· < ·) (stripJsonSuffix a ++ ".json".toList)
          (stripJsonSuffix b ++ ".json".toList) := by rw [← hae, ← hbe]
    _ ↔ List.Lex (· < ·) (stripJsonSuffix a) (stripJsonSuffix b) :=
        lex_append_iff _ _ _ (by rw [hal, hbl])
    _ ↔ stripJsonSuffix a < stripJsonSuffix b := Iff.rfl

theorem le_iff_strip_le (a b : JsStr) (ha : isHistoryFileName a = true)
    (hb : isHistoryFileName b = true) :
    a ≤ b ↔ stripJsonSuffix a ≤ stripJsonSuffix b := by
  rw [← not_lt, ← not_lt, not_iff_not]
  exact lt_iff_strip_lt b a hb ha

theorem strip_inj (a b : JsStr) (ha : isHistoryFileName a = true)
    (hb : isHistoryFileName b = true) (h : stripJsonSuffix a = stripJsonSuffix b) :
    a = b := by
  rw [(isHistoryFileName_decomp a ha).1, (isHistoryFileName_decomp b hb).1, h]

theorem listHistoryFiles_sorted (fs : HistoryDir) :
    (listHistoryFiles fs).Pairwise (· ≤ ·) :=
  List.sorted_insertionSort (· ≤ ·) _

theorem listHistoryFiles_mem_isHistoryFileName (fs : HistoryDir) (f : JsStr)
    (hf : f ∈ listHistoryFiles fs) : isHistoryFileName f = true := by
  rw [listHistoryFiles, List.mem_insertionSort] at hf
  exact List.of_mem_filter hf

theorem listHistoryFiles_nodup (fs : HistoryDir) (h : (dirNames fs).Nodup) :
    (listHistoryFiles fs).Nodup :=
  ((List.perm_insertionSort (· ≤ ·) _).nodup_iff).mpr (h.filter isHistoryFileName)

theorem availableDates_sorted (fs : HistoryDir) :
    (availableDates fs).Pairwise (· ≤ ·) := by
  rw [availableDates, List.pairwise_map]
  exact (listHistoryFiles_sorted fs).imp_of_mem (fun {a b} ha hb hle =>
    (le_iff_strip_le a b (listHistoryFiles_mem_isHistoryFileName fs a ha)
      (listHistoryFiles_mem_isHistoryFileName fs b hb)).mp hle)

theorem availableDates_nodup (fs : HistoryDir) (h : (dirNames fs).Nodup) :
    (availableDates fs).Nodup := by
  rw [availableDates]
  exact (listHistoryFiles_nodup fs h).map_on (fun x hx y hy hxy =>
    strip_inj x y (listHistoryFiles_mem_isHistoryFileName fs x hx)
      (listHistoryFiles_mem_isHistoryFileName fs y hy) hxy)

theorem sorted_getLast?_max (l : List JsStr) (hs : l.Pairwise (· ≤ ·)) (m : JsStr)
    (hm : l.getLast? = some m) : ∀ x ∈ l, x ≤ m := by
  induction l with
  | nil => intro x hx; cases hx
  | cons a t ih =>
    intro x hx
    cases t with
    | nil =>
      rcases List.mem_cons.mp hx with rfl | hxt
      · simp only [List.getLast?_singleton, Option.some.injEq] at hm
        exact le_of_eq hm
      · cases hxt
    | cons b t2 =>
      rw [List.getLast?_cons_cons] at hm
      rcases List.mem_cons.mp hx with rfl | hxt
      · exact le_trans ((List.pairwise_cons.mp hs).1 b (List.mem_cons_self b t2))
          (ih (List.pairwise_cons.mp hs).2 hm b (List.mem_cons_self b t2))
      · exact ih (List.pairwise_cons.mp hs).2 hm x hxt

/-! ### Date Resolver (historyPrice.ts lines 94-126) -/

/-- `ResolvedHistoryFile` of historyPrice.ts (the file path reduced to the
file name inside the history directory). -/
structure ResolvedHistoryFile where
  requestedDate : JsStr
  resolvedDate : JsStr
  filePath : JsStr
deriving DecidableEq

/-- historyPrice.ts `resolveHistoryFileForDate` (lines 94-126): normalize the
requested date; if `<date>.json` exists resolve to it directly; otherwise take
the last of the sorted candidate dates `≤` the requested date, failing with
`NoHistoryAvailable` when there is none. -/
def resolveHistoryFileForDate (today : JsStr) (date : Option JsStr) (fs : HistoryDir) :
    Except JsError ResolvedHistoryFile :=
  match normalizeDateInput today date with
  | .error e => .error e
  | .ok requestedDate =>
    if dateFileName requestedDate ∈ dirNames fs then
      .ok ⟨requestedDate, requestedDate, dateFileName requestedDate⟩
    else
      let files := listHistoryFiles fs
      let candidates := (files.map stripJsonSuffix).filter
        (fun d => decide (d ≤ requestedDate))
      match candidates.getLast? with
      | none => .error .noHistoryAvailable
      | some resolvedDate => .ok ⟨requestedDate, resolvedDate, dateFileName resolvedDate⟩

/-! ### Claim C2: date resolution -/

/-- Claim C2: for every requested date (in `YYYY-MM-DD` form) and directory
state: if the file `<date>.json` exists, resolution returns the requested date
itself, regardless of the other files; otherwise, if some available snapshot
date is `≤` the requested date, resolution succeeds with the maximum such
date; and if none is, it fails with `NoHistoryAvailable`. -/
theorem resolveHistoryFileForDate_spec (today : JsStr) (d : JsStr) (fs : HistoryDir)
    (hd : isDashDate d = true) :
    (dateFileName d ∈ dirNames fs →
      resolveHistoryFileForDate today (some d) fs = .ok ⟨d, d, dateFileName d⟩)
    ∧ (dateFileName d ∉ dirNames fs → ∀ c ∈ availableDates fs, c ≤ d →
      ∃ m, resolveHistoryFileForDate today (some d) fs = .ok ⟨d, m, dateFileName m⟩
        ∧ m ∈ availableDates fs ∧ m ≤ d
        ∧ ∀ x ∈ availableDates fs, x ≤ d → x ≤ m)
    ∧ ((∀ x ∈ availableDates fs, ¬ x ≤ d) →
      resolveHistoryFileForDate today (some d) fs = .error .noHistoryAvailable) := by
  have hnorm : normalizeDateInput today (some d) = .ok d := normalizeDateInput_dash today d hd
  have hcand : ((listHistoryFiles fs).map stripJsonSuffix).filter
      (fun x => decide (x ≤ d)) = (availableDates fs).filter (fun x => decide (x ≤ d)) := rfl
  refine ⟨fun hmem => ?_, fun hmem c hc hcd => ?_, fun hnone => ?_⟩
  · rw [resolveHistoryFileForDate, hnorm]
    simp only [if_pos hmem]
  · have hne : (availableDates fs).filter (fun x => decide (x ≤ d)) ≠ [] := by
      intro hnil
      have : c ∈ (availableDates fs).filter (fun x => decide (x ≤ d)) :=
        List.mem_filter.mpr ⟨hc, by simpa using hcd⟩
      rw [hnil] at this
      cases this
    cases hlast : ((availableDates fs).filter (fun x => decide (x ≤ d))).getLast? with
    | none => exact absurd (List.getLast?_eq_none_iff.mp hlast) hne
    | some m =>
      have hmmem := List.mem_filter.mp (List.mem_of_getLast?_eq_some hlast)
      refine ⟨m, ?_, hmmem.1, by simpa using hmmem.2, fun x hx hxd => ?_⟩
      · rw [resolveHistoryFileForDate, hnorm]
        simp only [if_neg hmem]
        rw [hcand, hlast]
      · exact sorted_getLast?_max _ ((availableDates_sorted fs).filter _) m hlast x
          (List.mem_filter.mpr ⟨hx, by simpa using hxd⟩)
  · have hmem : dateFileName d ∉ dirNames fs := by
      intro hmem
      have hfn : isHistoryFileName (dateFileName d) = true := by
        unfold isDashDate at hd
        split at hd
        next y1 y2 y3 y4 s1 m1 m2 s2 d1 d2 =>
          simpa [dateFileName, isHistoryFileName] using hd
        next => exact absurd hd (by simp)
      have hdmem : d ∈ availableDates fs := by
        have hfl : dateFileName d ∈ listHistoryFiles fs := by
          rw [listHistoryFiles, List.mem_insertionSort]
          exact List.mem_filter.mpr ⟨hmem, hfn⟩
        have : stripJsonSuffix (dateFileName d) = d := by
          simp only [dateFileName, stripJsonSuffix]
          simp
        rw [availableDates]
        exact this ▸ List.mem_map_of_mem stripJsonSuffix hfl
      exact hnone d hdmem le_rfl
    rw [resolveHistoryFileForDate, hnorm]
    simp only [if_neg hmem]
    rw [hcand, List.getLast?_eq_none_iff.mpr (List.filter_eq_nil_iff.mpr
      (fun x hx => by simpa using hnone x hx))]

theorem resolveHistoryFileForDate_spec_witness :
    resolveHistoryFileForDate ("2025-06-01".toList) (some ("2025-01-01".toList)) sampleDir =
        .ok ⟨"2025-01-01".toList, "2025-01-01".toList, dateFileName ("2025-01-01".toList)⟩
    ∧ (∃ m, resolveHistoryFileForDate ("2025-06-01".toList) (some ("2025-01-07".toList))
          sampleDir = .ok ⟨"2025-01-07".toList, m, dateFileName m⟩
        ∧ m ∈ availableDates sampleDir ∧ m ≤ "2025-01-07".toList
        ∧ ∀ x ∈ availableDates sampleDir, x ≤ "2025-01-07".toList → x ≤ m)
    ∧ resolveHistoryFileForDate ("2025-06-01".toList) (some ("2024-12-31".toList)) sampleDir =
        .error .noHistoryAvailable :=
  ⟨(resolveHistoryFileForDate_spec ("2025-06-01".toList) ("2025-01-01".toList) sampleDir
      (by decide)).1 (by decide),
    (resolveHistoryFileForDate_spec ("2025-06-01".toList) ("2025-01-07".toList) sampleDir
      (by decide)).2.1 (by decide) ("2025-01-01".toList) (by decide) (by decide),
    (resolveHistoryFileForDate_spec ("2025-06-01".toList) ("2024-12-31".toList) sampleDir
      (by decide)).2.2 (by decide)⟩

/-! ### Series Builder (historyPrice.ts lines 181-233) -/

/-- The fields extracted from a quote-API response
(`fetchLatestStockSnapshot`, lines 44-60): each is already optional, since the
code falls back to null through `?.` and `??` on any missing or malformed
part of the body. -/
structure FetchData where
  company_name : Option String
  ratio : Option ℚ
  price : Option ℚ
deriving DecidableEq

/-- The remote quote API, as seen by a run: the result of the `k`-th fetch,
`none` meaning the request throws (network failure). -/
abbrev FetchOracle := Nat → Option FetchData

/-- historyPrice.ts `fetchLatestStockSnapshot` (lines 44-60) on a successful
request: a record built from the extracted fields, stamped with today's date. -/
def snapshotOfFetch (stockCode : String) (today : JsStr) (d : FetchData) : HistoryRecord :=
  { stock_code := stockCode, company_name := d.company_name,
    ratio_of_price_to_200days_ma := d.ratio, current_price := d.price,
    fetched_at := today, snapshotted_at := today }

/-- `snapshot.fetched_at = date` before the upsert (lines 163, 204, 220). -/
def stampDate (r : HistoryRecord) (date : JsStr) : HistoryRecord :=
  { r with fetched_at := date }

/-- `StockPricePoint` of the repository's types. -/
structure StockPricePoint where
  date : JsStr
  price : Option ℚ
  ratioOfPriceTo200DaysMA : Option ℚ
deriving DecidableEq

/-- `dates.slice(-points)` (historyPrice.ts line 210): the last `points`
elements; `slice(-0)` is the whole array. -/
def sliceLast (l : List JsStr) (n : Nat) : List JsStr :=
  if n = 0 then l else l.drop (l.length - n)

/-- The per-date loop of `getStockPriceSeries` (lines 212-230): read the
date's file and find the stock's record; when its price is missing and
backfill is enabled, fetch a fresh snapshot (the `k`-th oracle call, which may
throw), stamp it with the date, upsert it into the file, and use it; push one
point per date. -/
def seriesLoop (stockCode : String) (backfill : Bool) (today : JsStr)
    (oracle : FetchOracle) (fs : HistoryDir) (k : Nat) :
    List JsStr → Except JsError (List StockPricePoint × HistoryDir × Nat)
  | [] => .ok ([], fs, k)
  | date :: rest =>
    if (((readHistoryFile (lookupFile fs (dateFileName date))).find?
          (fun r => r.stock_code == stockCode)).bind (fun r => r.current_price)) = none
        ∧ backfill then
      match oracle k with
      | none => .error .fetchFailed
      | some fd =>
        match seriesLoop stockCode backfill today oracle
            (upsertHistoryRecordFs fs (dateFileName date)
              (stampDate (snapshotOfFetch stockCode today fd) date)) (k + 1) rest with
        | .error e => .error e
        | .ok (pts, fs2, k2) =>
          .ok (⟨date, (stampDate (snapshotOfFetch stockCode today fd) date).current_price,
            (stampDate (snapshotOfFetch stockCode today fd) date).ratio_of_price_to_200days_ma⟩
              :: pts, fs2, k2)
    else
      match seriesLoop stockCode backfill today oracle fs k rest with
      | .error e => .error e
      | .ok (pts, fs2, k2) =>
        .ok (⟨date, (((readHistoryFile (lookupFile fs (dateFileName date))).find?
            (fun r => r.stock_code == stockCode)).bind (fun r => r.current_price)),
          (((readHistoryFile (lookupFile fs (dateFileName date))).find?
            (fun r => r.stock_code == stockCode)).bind
              (fun r => r.ratio_of_price_to_200days_ma))⟩ :: pts, fs2, k2)

/-- historyPrice.ts `getStockPriceSeries` (lines 181-233): normalize the end
date; collect the available snapshot dates `≤` it; when backfill is enabled
and no file exists for the end date, fetch a snapshot (the first oracle call),
stamp and upsert it, and re-sort the date list with the end date appended;
take the last `points` dates and run the per-date loop. -/
def getStockPriceSeriesBody (stockCode : String) (endDate : JsStr) (points : Nat)
    (backfill : Bool) (today : JsStr) (oracle : FetchOracle) (fs : HistoryDir) :
    Except JsError (List StockPricePoint × HistoryDir) :=
    match (if backfill ∧ endDate ∉ ((listHistoryFiles fs).map stripJsonSuffix).filter
          (fun x => decide (x ≤ endDate)) then
        match oracle 0 with
        | none => Except.error JsError.fetchFailed
        | some fd =>
          Except.ok (((((listHistoryFiles fs).map stripJsonSuffix).filter
              (fun x => decide (x ≤ endDate))) ++ [endDate]).insertionSort (· ≤ ·),
            upsertHistoryRecordFs fs (dateFileName endDate)
              (stampDate (snapshotOfFetch stockCode today fd) endDate), 1)
      else Except.ok (((listHistoryFiles fs).map stripJsonSuffix).filter
          (fun x => decide (x ≤ endDate)), fs, 0) :
      Except JsError (List JsStr × HistoryDir × Nat)) with
    | .error e => .error e
    | .ok (dates2, fs2, k) =>
      match seriesLoop stockCode backfill today oracle fs2 k (sliceLast dates2 points) with
      | .error e => .error e
      | .ok (pts, fs3, _) => .ok (pts, fs3)

/-- historyPrice.ts `getStockPriceSeries`: normalize the end date, then run
the body above. -/
def getStockPriceSeries (stockCode : String) (endDateOpt : Option JsStr) (points : Nat)
    (backfill : Bool) (today : JsStr) (oracle : FetchOracle) (fs : HistoryDir) :
    Except JsError (List StockPricePoint × HistoryDir) :=
  match normalizeDateInput today endDateOpt with
  | .error e => .error e
  | .ok endDate => getStockPriceSeriesBody stockCode endDate points backfill today oracle fs


/-- The loop returns one point per selected date, in order. -/
theorem seriesLoop_dates (stockCode : String) (backfill : Bool) (today : JsStr)
    (oracle : FetchOracle) :
    ∀ (ds : List JsStr) (fs : HistoryDir) (k : Nat) pts fs2 k2,
      seriesLoop stockCode backfill today oracle fs k ds = .ok (pts, fs2, k2) →
      pts.map (fun p => p.date) = ds := by
  intro ds
  induction ds with
  | nil =>
    intro fs k pts fs2 k2 h
    simp only [seriesLoop, Except.ok.injEq, Prod.mk.injEq] at h
    rw [← h.1]
    rfl
  | cons date rest ih =>
    intro fs k pts fs2 k2 h
    rw [seriesLoop] at h
    split at h
    · split at h
      · exact absurd h (by simp)
      · split at h
        · exact absurd h (by simp)
        · rename_i fd heq0 pts1 fs1 k1 heq
          simp only [Except.ok.injEq, Prod.mk.injEq] at h
          rw [← h.1]
          simpa using ih _ _ pts1 fs1 k1 heq
    · split at h
      · exact absurd h (by simp)
      · rename_i pts1 fs1 k1 heq
        simp only [Except.ok.injEq, Prod.mk.injEq] at h
        rw [← h.1]
        simpa using ih _ _ pts1 fs1 k1 heq

/-- Selected dates inherit bound, strict order and the length cap. -/
theorem sliceLast_props (dl : List JsStr) (d : JsStr) (points : Nat)
    (hps : dl.Pairwise (· ≤ ·)) (hnd : dl.Nodup) (hle : ∀ x ∈ dl, x ≤ d)
    (hpoints : 1 ≤ points) :
    (sliceLast dl points).length ≤ points
    ∧ (sliceLast dl points).Pairwise (· < ·)
    ∧ ∀ x ∈ sliceLast dl points, x ≤ d := by
  have hlt : dl.Pairwise (· < ·) :=
    (hps.and hnd).imp (fun {a b} h => lt_of_le_of_ne h.1 h.2)
  have hslice : sliceLast dl points = dl.drop (dl.length - points) := by
    rw [sliceLast, if_neg (by omega)]
  refine ⟨?_, ?_, ?_⟩
  · rw [hslice, List.length_drop]
    omega
  · rw [hslice]
    exact hlt.drop
  · intro x hx
    rw [hslice] at hx
    exact hle x (List.mem_of_mem_drop hx)

/-! ### Claim C1: shape of the returned series -/

/-- Claim C1: for every stock code, directory state (with distinct entry
names), end date `d` (in `YYYY-MM-DD` form), point count `≥ 1` and either
backfill setting, a successful `getStockPriceSeries` run returns a series of
at most `points` points whose dates are strictly ascending and all `≤ d`. -/
theorem getStockPriceSeries_spec (stockCode : String) (d : JsStr) (points : Nat)
    (backfill : Bool) (today : JsStr) (oracle : FetchOracle) (fs : HistoryDir)
    (hd : isDashDate d = true) (hpoints : 1 ≤ points) (hnodup : (dirNames fs).Nodup)
    (series : List StockPricePoint) (fs' : HistoryDir)
    (hok : getStockPriceSeries stockCode (some d) points backfill today oracle fs =
      .ok (series, fs')) :
    series.length ≤ points
    ∧ (series.map (fun p => p.date)).Pairwise (· < ·)
    ∧ ∀ p ∈ series, p.date ≤ d := by
  replace hok : getStockPriceSeriesBody stockCode d points backfill today oracle fs =
      .ok (series, fs') := by
    rw [getStockPriceSeries, normalizeDateInput_dash today d hd] at hok
    exact hok
  rw [getStockPriceSeriesBody] at hok
  have hsorted : (((listHistoryFiles fs).map stripJsonSuffix).filter
      (fun x => decide (x ≤ d))).Pairwise (· ≤ ·) := (availableDates_sorted fs).filter _
  have hdatesnd : (((listHistoryFiles fs).map stripJsonSuffix).filter
      (fun x => decide (x ≤ d))).Nodup := (availableDates_nodup fs hnodup).filter _
  have hdatesle : ∀ x ∈ ((listHistoryFiles fs).map stripJsonSuffix).filter
      (fun x => decide (x ≤ d)), x ≤ d := by
    intro x hx
    simpa using (List.mem_filter.mp hx).2
  split at hok
  · exact absurd hok (by simp)
  · rename_i dates2 fs2 k heq
    have hprops : dates2.Pairwise (· ≤ ·) ∧ dates2.Nodup ∧ ∀ x ∈ dates2, x ≤ d := by
      split at heq
      · rename_i hcond
        split at heq
        · exact absurd heq (by simp)
        · rename_i fd heq0
          simp only [Except.ok.injEq, Prod.mk.injEq] at heq
          obtain ⟨h1, -, -⟩ := heq
          subst h1
          have happ : ((((listHistoryFiles fs).map stripJsonSuffix).filter
              (fun x => decide (x ≤ d))) ++ [d]).Nodup := by
            rw [List.nodup_append]
            refine ⟨hdatesnd, List.nodup_singleton d, fun a ha ha2 => ?_⟩
            rw [List.mem_singleton.mp ha2] at ha
            exact hcond.2 ha
          refine ⟨List.sorted_insertionSort (· ≤ ·) _,
            ((List.perm_insertionSort (· ≤ ·) _).nodup_iff).mpr happ, fun x hx => ?_⟩
          rw [List.mem_insertionSort] at hx
          rcases List.mem_append.mp hx with hx1 | hx2
          · exact hdatesle x hx1
          · exact le_of_eq (List.mem_singleton.mp hx2)
      · simp only [Except.ok.injEq, Prod.mk.injEq] at heq
        obtain ⟨h1, -, -⟩ := heq
        subst h1
        exact ⟨hsorted, hdatesnd, hdatesle⟩
    split at hok
    · exact absurd hok (by simp)
    · rename_i pts fs3 k3 heq2
      simp only [Except.ok.injEq, Prod.mk.injEq] at hok
      obtain ⟨h1, h2⟩ := hok
      subst h1
      subst h2
      have hdates := seriesLoop_dates stockCode backfill today oracle _ _ _ _ _ _ heq2
      obtain ⟨hlen, hstrict, hmem⟩ :=
        sliceLast_props dates2 d points hprops.1 hprops.2.1 hprops.2.2 hpoints
      refine ⟨?_, ?_, ?_⟩
      · rw [← hdates] at hlen
        simpa using hlen
      · rw [hdates]
        exact hstrict
      · intro p hp
        exact hmem p.date (hdates ▸ List.mem_map_of_mem (fun p => p.date) hp)

/-- When no fetch throws, the per-date loop always succeeds. -/
theorem seriesLoop_total (stockCode : String) (backfill : Bool) (today : JsStr)
    (oracle : FetchOracle) (hor : ∀ k, oracle k ≠ none) :
    ∀ (ds : List JsStr) (fs : HistoryDir) (k : Nat),
      ∃ out, seriesLoop stockCode backfill today oracle fs k ds = .ok out := by
  intro ds
  induction ds with
  | nil => exact fun fs k => ⟨([], fs, k), rfl⟩
  | cons date rest ih =>
    intro fs k
    by_cases hcond : ((((readHistoryFile (lookupFile fs (dateFileName date))).find?
        (fun r => r.stock_code == stockCode)).bind (fun r => r.current_price)) = none
        ∧ backfill = true)
    · cases horacle : oracle k with
      | none => exact absurd horacle (hor k)
      | some fd =>
        obtain ⟨⟨pts1, fs1, k1⟩, hrec⟩ := ih (upsertHistoryRecordFs fs (dateFileName date)
          (stampDate (snapshotOfFetch stockCode today fd) date)) (k + 1)
        refine ⟨(⟨date, (stampDate (snapshotOfFetch stockCode today fd) date).current_price,
          (stampDate (snapshotOfFetch stockCode today fd) date).ratio_of_price_to_200days_ma⟩
            :: pts1, fs1, k1), ?_⟩
        rw [seriesLoop, if_pos hcond, horacle]
        simp only [hrec]
    · obtain ⟨⟨pts1, fs1, k1⟩, hrec⟩ := ih fs k
      exact ⟨_, by rw [seriesLoop, if_neg hcond, hrec]⟩

/-! ### Claim C4: fetch failures under backfill -/

/-- Claim C4, counterexample: with backfill enabled, a failing remote fetch
(a thrown request) is not recovered as a null value: `getStockPriceSeries`
propagates it as an exception. -/
theorem series_backfill_fetch_failure_counterexample :
    getStockPriceSeries "7203" (some ("2025-01-05".toList)) 60 true ("2025-06-01".toList)
      (fun _ => none) [] = .error .fetchFailed := rfl

/-- Claim C4 (amended): with backfill enabled, a malformed quote response
(missing fields) is recovered locally as null values in the stored snapshot
and the returned series point, and a run whose fetches all return (however
malformed) never throws; but a thrown fetch (network failure) propagates as
an exception from `getStockPriceSeries` (see the counterexample). -/
theorem series_backfill_recovers_malformed (stockCode : String) (d : JsStr) (points : Nat)
    (backfill : Bool) (today : JsStr) (oracle : FetchOracle) (fs : HistoryDir)
    (hd : isDashDate d = true) (hor : ∀ k, oracle k ≠ none) :
    (∃ out, getStockPriceSeries stockCode (some d) points backfill today oracle fs = .ok out)
    ∧ getStockPriceSeries "7203" (some ("2025-01-01".toList)) 60 true ("2025-06-01".toList)
        (fun _ => some ⟨none, none, none⟩) [("2025-01-01.json".toList, .jsonArray [])] =
      .ok ([⟨"2025-01-01".toList, none, none⟩],
        upsertHistoryRecordFs [("2025-01-01.json".toList, .jsonArray [])]
          (dateFileName ("2025-01-01".toList))
          (stampDate (snapshotOfFetch "7203" ("2025-06-01".toList) ⟨none, none, none⟩)
            ("2025-01-01".toList))) := by
  constructor
  · have hbody : ∀ (dl : List JsStr) (fs2 : HistoryDir) (k : Nat),
        ∃ out, (match seriesLoop stockCode backfill today oracle fs2 k
            (sliceLast dl points) with
          | Except.error e => Except.error e
          | Except.ok (pts, fs3, _) =>
            (Except.ok (pts, fs3) : Except JsError (List StockPricePoint × HistoryDir))) =
          .ok out := by
      intro dl fs2 k
      obtain ⟨⟨pts1, fs1, k1⟩, hrec⟩ :=
        seriesLoop_total stockCode backfill today oracle hor (sliceLast dl points) fs2 k
      exact ⟨_, by rw [hrec]⟩
    have hmain : ∃ out, getStockPriceSeriesBody stockCode d points backfill today oracle fs =
        .ok out := by
      rw [getStockPriceSeriesBody]
      by_cases hcond : (backfill = true ∧
          d ∉ ((listHistoryFiles fs).map stripJsonSuffix).filter (fun x => decide (x ≤ d)))
      · cases horacle : oracle 0 with
        | none => exact absurd horacle (hor 0)
        | some fd =>
          rw [if_pos hcond]
          exact hbody _ _ 1
      · rw [if_neg hcond]
        exact hbody _ fs 0
    obtain ⟨out, hout⟩ := hmain
    exact ⟨out, by rw [getStockPriceSeries, normalizeDateInput_dash today d hd]; exact hout⟩
  · rfl

theorem series_backfill_recovers_malformed_witness :
    ∃ out, getStockPriceSeries "9432" (some ("2025-02-03".toList)) 30 true
      ("2025-06-01".toList) (fun _ => some ⟨some "NTT", some 1, some 150⟩) [] = .ok out :=
  (series_backfill_recovers_malformed "9432" ("2025-02-03".toList) 30 true
    ("2025-06-01".toList) (fun _ => some ⟨some "NTT", some 1, some 150⟩) [] (by decide)
    (fun k h => by simp at h)).1

/-- A two-file directory used by the concrete series witness. -/
def sampleDir2 : HistoryDir :=
  [("2025-01-01.json".toList, .jsonArray [sampleFresh]),
   ("2025-01-02.json".toList, .jsonArray [])]

theorem getStockPriceSeries_spec_witness :
    ([(⟨"2025-01-01".toList, some 100, none⟩ : StockPricePoint),
        ⟨"2025-01-02".toList, none, none⟩] : List StockPricePoint).length ≤ 2
    ∧ (([(⟨"2025-01-01".toList, some 100, none⟩ : StockPricePoint),
          ⟨"2025-01-02".toList, none, none⟩] : List StockPricePoint).map
        (fun p => p.date)).Pairwise (· < ·)
    ∧ ∀ p ∈ ([(⟨"2025-01-01".toList, some 100, none⟩ : StockPricePoint),
          ⟨"2025-01-02".toList, none, none⟩] : List StockPricePoint),
        p.date ≤ "2025-01-03".toList :=
  getStockPriceSeries_spec "7203" ("2025-01-03".toList) 2 false ("2025-06-01".toList)
    (fun _ => none) sampleDir2 (by decide) (by decide) (by decide)
    [⟨"2025-01-01".toList, some 100, none⟩, ⟨"2025-01-02".toList, none, none⟩]
    sampleDir2 rfl
